import Mathlib

/-!
Verification of the MCP client turn orchestrator (reference implementations
`mcp-client-nested-tool-calls.py` and `mcp-client-streaming.py`).

The embedding models:
- a JSON value type with `json_loads` / `Json.dumps` covering the fragment of
  Python's `json` module exercised by the client (null, booleans, integers,
  strings with basic escapes, arrays, objects; floats and unicode escapes are
  outside the model),
- the per-call dispatch (`process_tool_call`, both variants),
- the batch dispatch (`asyncio.gather` modelled as issue-ordered fan-out whose
  first failing call aborts the batch),
- the non-streaming orchestrator `process_messages` and the streaming
  orchestrator `process_messages_streaming` with its fragment assembler.
-/

namespace MCP

/-! ### JSON values -/

/-- JSON values as produced by `json.loads` (integer fragment of numbers). -/
inductive Json where
  | null
  | bool (b : Bool)
  | num (n : Int)
  | str (s : String)
  | arr (elems : List Json)
  | obj (entries : List (String × Json))

/-- Python dict insertion semantics: `d[k] = v` keeps the first position of an
existing key and overwrites its value; a fresh key is appended at the end.
This is both how `json.loads` builds objects and how `{**d, k: v}` merges. -/
def dictInsert : List (String × Json) → String → Json → List (String × Json)
  | [], k, v => [(k, v)]
  | kv :: rest, k, v =>
    if kv.1 = k then (k, v) :: rest else kv :: dictInsert rest k v

/-- Escaping for `json.dumps` string output (quote and backslash). -/
def escSeq (c : Char) : List Char :=
  if c = '"' ∨ c = '\\' then ['\\', c] else [c]

/-- Serialize a string the way `json.dumps` does. -/
def dumpStr (s : String) : String :=
  String.mk ('"' :: (s.data.flatMap escSeq) ++ ['"'])

mutual

/-- `json.dumps` with its default separators `", "` and `": "`. -/
def Json.dumps : Json → String
  | .null => "null"
  | .bool true => "true"
  | .bool false => "false"
  | .num n => toString n
  | .str s => dumpStr s
  | .arr xs => "[" ++ String.intercalate ", " (dumpsList xs) ++ "]"
  | .obj kvs => "\x7b" ++ String.intercalate ", " (dumpsEntries kvs) ++ "\x7d"

def dumpsList : List Json → List String
  | [] => []
  | x :: xs => Json.dumps x :: dumpsList xs

def dumpsEntries : List (String × Json) → List String
  | [] => []
  | kv :: kvs => (dumpStr kv.1 ++ ": " ++ Json.dumps kv.2) :: dumpsEntries kvs

end

/-! ### JSON parsing (`json.loads`) -/

def jsonWs (c : Char) : Bool :=
  c = ' ' || c = '\n' || c = '\t' || c = '\r'

def skipWs : List Char → List Char
  | [] => []
  | c :: cs => if jsonWs c then skipWs cs else c :: cs

/-- Unescape one character following a backslash inside a JSON string. -/
def unescape (c : Char) : Option Char :=
  if c = '"' then some '"'
  else if c = '\\' then some '\\'
  else if c = '/' then some '/'
  else if c = 'n' then some '\n'
  else if c = 't' then some '\t'
  else if c = 'r' then some '\r'
  else none

/-- Parse the body of a JSON string after the opening quote; returns the
decoded characters and the remainder after the closing quote. -/
def parseStrBody : List Char → Option (List Char × List Char)
  | [] => none
  | c :: cs =>
    if c = '"' then some ([], cs)
    else if c = '\\' then
      match cs with
      | [] => none
      | e :: cs2 =>
        match unescape e with
        | none => none
        | some u =>
          match parseStrBody cs2 with
          | none => none
          | some p => some (u :: p.1, p.2)
    else
      match parseStrBody cs with
      | none => none
      | some p => some (c :: p.1, p.2)

def spanDigits : List Char → List Char × List Char
  | [] => ([], [])
  | c :: cs =>
    if c.isDigit then
      let p := spanDigits cs
      (c :: p.1, p.2)
    else ([], c :: cs)

def digitsToNat (l : List Char) : Nat :=
  l.foldl (fun a c => a * 10 + (c.toNat - 48)) 0

def lbraceChar : Char := Char.ofNat 123

def rbraceChar : Char := Char.ofNat 125

/-- Match a literal keyword tail (e.g. `ull` after `n`). -/
def matchLit : List Char → List Char → Option (List Char)
  | [], cs => some cs
  | l :: ls, c :: cs => if c = l then matchLit ls cs else none
  | _ :: _, [] => none

mutual

/-- Recursive-descent JSON value parser, fuelled. -/
def parseVal : Nat → List Char → Option (Json × List Char)
  | 0, _ => none
  | fuel + 1, cs =>
    match skipWs cs with
    | [] => none
    | c :: rest =>
      if c = '"' then
        match parseStrBody rest with
        | none => none
        | some p => some (.str (String.mk p.1), p.2)
      else if c = lbraceChar then parseObjBody fuel (skipWs rest)
      else if c = '[' then parseArrBody fuel (skipWs rest)
      else if c = 'n' then
        match matchLit ['u', 'l', 'l'] rest with
        | none => none
        | some r => some (.null, r)
      else if c = 't' then
        match matchLit ['r', 'u', 'e'] rest with
        | none => none
        | some r => some (.bool true, r)
      else if c = 'f' then
        match matchLit ['a', 'l', 's', 'e'] rest with
        | none => none
        | some r => some (.bool false, r)
      else if c = '-' then
        match spanDigits rest with
        | ([], _) => none
        | (ds, rest2) => some (.num (-(digitsToNat ds : Int)), rest2)
      else if c.isDigit then
        let p := spanDigits (c :: rest)
        some (.num (digitsToNat p.1), p.2)
      else none

/-- Parse an object body after the opening brace (whitespace skipped). -/
def parseObjBody : Nat → List Char → Option (Json × List Char)
  | 0, _ => none
  | fuel + 1, cs =>
    match cs with
    | [] => none
    | c :: rest =>
      if c = rbraceChar then some (.obj [], rest)
      else parseEntries fuel cs []

/-- Parse `"key": value` pairs separated by commas, ending at the brace. -/
def parseEntries : Nat → List Char → List (String × Json) → Option (Json × List Char)
  | 0, _, _ => none
  | fuel + 1, cs, acc =>
    match skipWs cs with
    | [] => none
    | c :: rest =>
      if c = '"' then
        match parseStrBody rest with
        | none => none
        | some kp =>
          match skipWs kp.2 with
          | ':' :: rest3 =>
            match parseVal fuel rest3 with
            | none => none
            | some vp =>
              let acc2 := dictInsert acc (String.mk kp.1) vp.1
              match skipWs vp.2 with
              | ',' :: rest5 => parseEntries fuel rest5 acc2
              | c2 :: rest5 =>
                if c2 = rbraceChar then some (.obj acc2, rest5) else none
              | [] => none
          | _ => none
      else none

/-- Parse an array body after the opening bracket (whitespace skipped). -/
def parseArrBody : Nat → List Char → Option (Json × List Char)
  | 0, _ => none
  | fuel + 1, cs =>
    match cs with
    | [] => none
    | c :: rest =>
      if c = ']' then some (.arr [], rest)
      else parseItems fuel cs []

/-- Parse array elements separated by commas, ending at the bracket. -/
def parseItems : Nat → List Char → List Json → Option (Json × List Char)
  | 0, _, _ => none
  | fuel + 1, cs, acc =>
    match parseVal fuel cs with
    | none => none
    | some vp =>
      match skipWs vp.2 with
      | ',' :: rest2 => parseItems fuel rest2 (acc ++ [vp.1])
      | c2 :: rest2 => if c2 = ']' then some (.arr (acc ++ [vp.1]), rest2) else none
      | [] => none

end

/-- `json.loads`: parse a complete JSON document; trailing garbage fails. -/
def json_loads (s : String) : Option Json :=
  match parseVal (s.length + 1) s.data with
  | some p => if (skipWs p.2).isEmpty then some p.1 else none
  | none => none

/-! ### Decimal rendering of naturals (Python `f"tool_{idx}"`) -/

def digitChar10 (d : Nat) : Char := Char.ofNat (48 + d)

/-- Least-significant-first decimal digits, fuelled (fuel `n` suffices). -/
def ldigitsAux : Nat → Nat → List Nat
  | 0, n => [n]
  | fuel + 1, n => if n < 10 then [n] else n % 10 :: ldigitsAux fuel (n / 10)

def ldigits (n : Nat) : List Nat := ldigitsAux n n

/-- Recombine least-significant-first digits into a number. -/
def unval (l : List Nat) : Nat := l.foldr (fun d a => d + 10 * a) 0

/-- Decimal string of a natural number, as Python string formatting does. -/
def natRepr (n : Nat) : String :=
  String.mk ((ldigits n).reverse.map digitChar10)

/-! ### Data model -/

/-- A tool call as carried by an assistant message
(`ChatCompletionMessageToolCallParam`): arguments are raw JSON text. -/
structure ToolCall where
  id : String
  type : String
  name : String
  arguments : String
deriving DecidableEq, Repr

/-- A conversation message (user / assistant / tool role). -/
inductive Message where
  | user (content : String)
  | assistant (content : Option String) (tool_calls : Option (List ToolCall))
  | tool (content : String) (tool_call_id : String)
deriving DecidableEq, Repr

/-- One content item of a tool-host result (`text` is meaningful only when
`type = "text"`). -/
structure ContentItem where
  type : String
  text : String
deriving DecidableEq, Repr

/-- Result of `session.call_tool`. -/
structure CallToolResult where
  isError : Bool
  content : List ContentItem
  error : String
deriving DecidableEq, Repr

/-- Classification of the exceptions the client raises (spec section 7):
`ToolArgumentError` for `json.loads` failures, `ToolExecutionError` for
host-reported errors, `UnsupportedResultType` for non-text content items,
the `FinishReasonError` family for terminal finish reasons, the failed
`assert tool_calls is not None`, and the `TypeError` of merging non-dict
parsed arguments. -/
inductive TurnError where
  | toolArgumentError (raw : String)
  | toolExecutionError (msg : String)
  | unsupportedResultType (t : String)
  | assertionFailed
  | nonObjectArguments
  | lengthLimit
  | contentFilter
  | deprecatedFunctionCall
  | unknownFinishReason (r : String)
  | streamUnknownFinish (r : Option String)
deriving DecidableEq, Repr

/-- The external tool host: `call_tool(name, parsed_args)`. -/
def Host := String → Json → CallToolResult

/-! ### Tool dispatch -/

/-- The content-item loop of `process_tool_call`: text items contribute their
text, the first non-text item raises `NotImplementedError`. -/
def extractTexts : List ContentItem → Except TurnError (List String)
  | [] => .ok []
  | item :: rest =>
    if item.type = "text" then
      match extractTexts rest with
      | .ok l => .ok (item.text :: l)
      | .error e => .error e
    else .error (.unsupportedResultType item.type)

/-- The part of `process_tool_call` after `json.loads` succeeded — this code
is verbatim identical in the nested and the streaming client: call the host,
fail on a host error, extract text results, and build the tool message whose
content is `json.dumps({**tool_args, tool_name: results})`. -/
def dispatchParsed (host : Host) (tool_name : String) (call_id : String)
    (tool_args : Json) : Except TurnError Message :=
  let r := host tool_name tool_args
  if r.isError then .error (.toolExecutionError r.error)
  else
    match extractTexts r.content with
    | .error e => .error e
    | .ok results =>
      match tool_args with
      | .obj kvs =>
        .ok (.tool
          (Json.dumps (.obj (dictInsert kvs tool_name (.arr (results.map Json.str)))))
          call_id)
      | _ => .error .nonObjectArguments

/-- `process_tool_call` of `mcp-client-nested-tool-calls.py`:
`tool_args = json.loads(tool_call.function.arguments)`. -/
def processToolCall (host : Host) (tc : ToolCall) : Except TurnError Message :=
  if tc.type = "function" then
    match json_loads tc.arguments with
    | none => .error (.toolArgumentError tc.arguments)
    | some args => dispatchParsed host tc.name tc.id args
  else .error .assertionFailed

/-- `process_tool_call` of `mcp-client-streaming.py`:
`tool_args = json.loads(tool_call['function']['arguments'] or "\x7b\x7d")`. -/
def processToolCallStreaming (host : Host) (tc : ToolCall) : Except TurnError Message :=
  if tc.type = "function" then
    let raw := if tc.arguments = "" then "\x7b\x7d" else tc.arguments
    match json_loads raw with
    | none => .error (.toolArgumentError raw)
    | some args => dispatchParsed host tc.name tc.id args
  else .error .assertionFailed

/-- `asyncio.gather` over one task per call: results are delivered in
call-issue order, and a failing call makes the whole gather fail with that
call's error (modelled deterministically as the first failure in issue
order). -/
def dispatchGen (f : ToolCall → Except TurnError Message) :
    List ToolCall → Except TurnError (List Message)
  | [] => .ok []
  | tc :: rest =>
    match f tc with
    | .error e => .error e
    | .ok m =>
      match dispatchGen f rest with
      | .error e => .error e
      | .ok ms => .ok (m :: ms)

/-- Batch dispatch of the nested client. -/
def dispatchBatch (host : Host) : List ToolCall → Except TurnError (List Message) :=
  dispatchGen (processToolCall host)

/-- Batch dispatch of the streaming client. -/
def dispatchBatchStreaming (host : Host) : List ToolCall → Except TurnError (List Message) :=
  dispatchGen (processToolCallStreaming host)

/-! ### Non-streaming orchestrator (`process_messages`) -/

/-- The relevant part of a chat-completions response message. -/
structure ResponseMessage where
  content : Option String
  tool_calls : Option (List ToolCall)
deriving DecidableEq, Repr

/-- One model response: finish reason plus message. -/
structure ModelResponse where
  finish_reason : String
  message : ResponseMessage
deriving DecidableEq, Repr

/-- Outcome of one turn of the orchestrator: terminate with the final
conversation, recurse with the extended conversation, or raise a classified
error with the conversation as it stands at the raise. -/
inductive StepOutcome where
  | final (conv : List Message)
  | recurse (conv : List Message)
  | failed (e : TurnError) (conv : List Message)
deriving DecidableEq, Repr

/-- One turn of `process_messages` (nested client), given the model's
response: the branch on `finish_reason`, including the
`assert tool_calls is not None` and the in-place `messages.append` /
`messages.extend` mutations. -/
def processStep (host : Host) (resp : ModelResponse) (conv : List Message) : StepOutcome :=
  if resp.finish_reason = "stop" then
    .final (conv ++ [.assistant resp.message.content none])
  else if resp.finish_reason = "tool_calls" then
    match resp.message.tool_calls with
    | none => .failed .assertionFailed conv
    | some tcs =>
      let conv2 := conv ++ [.assistant none (some tcs)]
      match dispatchBatch host tcs with
      | .error e => .failed e conv2
      | .ok msgs => .recurse (conv2 ++ msgs)
  else if resp.finish_reason = "length" then .failed .lengthLimit conv
  else if resp.finish_reason = "content_filter" then .failed .contentFilter conv
  else if resp.finish_reason = "function_call" then .failed .deprecatedFunctionCall conv
  else .failed (.unknownFinishReason resp.finish_reason) conv

/-- The recursive `process_messages` driven by a finite script of model
responses (one response per model call). An exhausted script returns the
current conversation; the theorems only inspect scripted turns. -/
def runTurns (host : Host) : List ModelResponse → List Message →
    Except (TurnError × List Message) (List Message)
  | [], conv => .ok conv
  | resp :: rest, conv =>
    match processStep host resp conv with
    | .final c => .ok c
    | .recurse c => runTurns host rest c
    | .failed e c => .error (e, c)

/-! ### Streaming assembler and orchestrator -/

/-- The function part of a streamed tool-call delta. -/
structure FunctionDelta where
  name : Option String
  arguments : Option String
deriving DecidableEq, Repr

/-- A streamed tool-call fragment addressed to slot `index`. -/
structure DeltaToolCall where
  index : Nat
  id : Option String
  type : Option String
  function : Option FunctionDelta
deriving DecidableEq, Repr

/-- The delta of one stream event. -/
structure StreamDelta where
  content : Option String
  tool_calls : Option (List DeltaToolCall)
deriving DecidableEq, Repr

/-- One stream event (`choice.delta` plus optional `finish_reason`). -/
structure StreamEvent where
  delta : StreamDelta
  finish_reason : Option String
deriving DecidableEq, Repr

/-- Python truthiness of an optional string (`None` and `""` are falsy). -/
def truthy : Option String → Bool
  | none => false
  | some s => if s = "" then false else true

/-- One accumulator of `tool_calls_acc`, keyed by slot index. -/
structure Slot where
  id : Option String
  type : Option String
  name : String
  arguments : String
deriving DecidableEq, Repr

/-- The `setdefault` default: `id` unset, `type` taken from the first
fragment for this slot, empty `name` and `arguments`. -/
def initSlot (tc : DeltaToolCall) : Slot :=
  { id := none, type := tc.type, name := "", arguments := "" }

/-- Apply one fragment to its slot accumulator: a truthy `id` is stored, a
truthy `function.name` REPLACES the accumulated name, a truthy
`function.arguments` is APPENDED to the accumulated arguments. -/
def updateSlot (s : Slot) (tc : DeltaToolCall) : Slot :=
  let s1 := if truthy tc.id then { s with id := tc.id } else s
  match tc.function with
  | none => s1
  | some f =>
    let s2 := if truthy f.name then { s1 with name := f.name.getD "" } else s1
    if truthy f.arguments then
      { s2 with arguments := s2.arguments ++ f.arguments.getD "" }
    else s2

/-- `tool_calls_acc` as an insertion-ordered association list (Python dict):
`setdefault` appends a fresh slot at the end, an existing slot is updated in
place. -/
def applyDelta : List (Nat × Slot) → DeltaToolCall → List (Nat × Slot)
  | [], tc => [(tc.index, updateSlot (initSlot tc) tc)]
  | p :: rest, tc =>
    if p.1 = tc.index then (p.1, updateSlot p.2 tc) :: rest
    else p :: applyDelta rest tc

/-- Look up the accumulator of a slot index. -/
def lookupSlot : List (Nat × Slot) → Nat → Option Slot
  | [], _ => none
  | p :: rest, i => if p.1 = i then some p.2 else lookupSlot rest i

/-- The mutable state of the stream-consuming loop. -/
structure StreamState where
  textParts : List String
  acc : List (Nat × Slot)
  finish : Option String
deriving DecidableEq, Repr

def initStreamState : StreamState := ⟨[], [], none⟩

/-- Consume one stream event: truthy text deltas are buffered, tool-call
deltas are folded into the accumulator, a truthy finish reason is recorded. -/
def procEvent (st : StreamState) (ev : StreamEvent) : StreamState :=
  let st1 :=
    if truthy ev.delta.content then
      { st with textParts := st.textParts ++ [ev.delta.content.getD ""] }
    else st
  let st2 :=
    match ev.delta.tool_calls with
    | none => st1
    | some tcs => { st1 with acc := tcs.foldl applyDelta st1.acc }
  match ev.finish_reason with
  | some fr => if fr = "" then st2 else { st2 with finish := some fr }
  | none => st2

/-- Materialize one accumulator into a `ToolCall`:
`id = slot["id"] or f"tool_\x7bidx\x7d"`, `type = slot["type"] or "function"`. -/
def slotToCall (p : Nat × Slot) : ToolCall :=
  { id := if truthy p.2.id then p.2.id.getD "" else "tool_" ++ natRepr p.1,
    type := if truthy p.2.type then p.2.type.getD "" else "function",
    name := p.2.name,
    arguments := p.2.arguments }

/-- `for idx in sorted(tool_calls_acc.keys())`: the accumulators ordered by
ascending slot index. -/
def sortAcc (l : List (Nat × Slot)) : List (Nat × Slot) :=
  List.insertionSort (fun a b => a.1 ≤ b.1) l

/-- The final assembled batch on stream end with finish reason `tool_calls`. -/
def materialize (acc : List (Nat × Slot)) : List ToolCall :=
  (sortAcc acc).map slotToCall

/-- One turn of `process_messages_streaming`, given the event sequence of the
streamed response. -/
def processStreamStep (host : Host) (events : List StreamEvent)
    (conv : List Message) : StepOutcome :=
  let st := events.foldl procEvent initStreamState
  if st.finish = some "stop" then
    .final (conv ++ [.assistant (some (String.join st.textParts)) none])
  else if st.finish = some "tool_calls" then
    let tcs := materialize st.acc
    let conv2 := conv ++ [.assistant none (some tcs)]
    match dispatchBatchStreaming host tcs with
    | .error e => .failed e conv2
    | .ok msgs => .recurse (conv2 ++ msgs)
  else if st.finish = some "length" then .failed .lengthLimit conv
  else if st.finish = some "content_filter" then .failed .contentFilter conv
  else .failed (.streamUnknownFinish st.finish) conv

/-- The recursive `process_messages_streaming` driven by a finite script of
streamed responses (one event list per model call). -/
def runTurnsStreaming (host : Host) : List (List StreamEvent) → List Message →
    Except (TurnError × List Message) (List Message)
  | [], conv => .ok conv
  | events :: rest, conv =>
    match processStreamStep host events conv with
    | .final c => .ok c
    | .recurse c => runTurnsStreaming host rest c
    | .failed e c => .error (e, c)

/-! ### Concrete fixtures used by witness theorems -/

/-- A host whose every tool call succeeds with one text result `"ok"`. -/
def hostOk : Host := fun _ _ => ⟨false, [⟨"text", "ok"⟩], ""⟩

/-- A host answering with the two text results `"r1"`, `"r2"`. -/
def hostSearch : Host := fun _ _ => ⟨false, [⟨"text", "r1"⟩, ⟨"text", "r2"⟩], ""⟩

/-- The spec's end-to-end example call. -/
def tcFactorize : ToolCall :=
  ⟨"t1", "function", "factorize", "\x7b\"n\":600851475143\x7d"⟩

/-- A `tool_calls` response carrying the example call. -/
def respFactorize : ModelResponse := ⟨"tool_calls", ⟨none, some [tcFactorize]⟩⟩

/-- The tool message `dispatchBatch hostOk [tcFactorize]` produces. -/
def msgFactorize : Message :=
  .tool "\x7b\"n\": 600851475143, \"factorize\": [\"ok\"]\x7d" "t1"

/-- A call with malformed JSON arguments. -/
def tcMalformed : ToolCall := ⟨"b1", "function", "f", "\x7bnot json"⟩

/-- A streamed turn with two id-less tool-call slots arriving out of order. -/
def eventsTwoSlots : List StreamEvent :=
  [⟨⟨none, some [⟨1, none, some "function", some ⟨some "g", some "\x7b\x7d"⟩⟩]⟩, none⟩,
   ⟨⟨none, some [⟨0, none, some "function", some ⟨some "f", some "\x7b\x7d"⟩⟩]⟩, none⟩,
   ⟨⟨none, none⟩, some "tool_calls"⟩]

instance : IsTotal (Nat × Slot) (fun a b => a.1 ≤ b.1) :=
  ⟨fun a b => Nat.le_total a.1 b.1⟩

instance : IsTrans (Nat × Slot) (fun a b => a.1 ≤ b.1) :=
  ⟨fun _ _ _ h1 h2 => Nat.le_trans h1 h2⟩

/-! ### Helper lemmas -/

theorem dispatchGen_ok_length (f : ToolCall → Except TurnError Message) :
    ∀ (l : List ToolCall) (ms : List Message),
      dispatchGen f l = .ok ms → ms.length = l.length := by
  intro l
  induction l with
  | nil =>
    intro ms h
    simp only [dispatchGen] at h
    cases h
    rfl
  | cons tc rest ih =>
    intro ms h
    simp only [dispatchGen] at h
    cases hf : f tc with
    | error e => rw [hf] at h; cases h
    | ok m =>
      rw [hf] at h
      cases hd : dispatchGen f rest with
      | error e => rw [hd] at h; cases h
      | ok ms2 =>
        rw [hd] at h
        cases h
        simp [ih ms2 hd]

theorem dispatchGen_ok_get (f : ToolCall → Except TurnError Message) :
    ∀ (l : List ToolCall) (ms : List Message),
      dispatchGen f l = .ok ms →
      ∀ (i : Nat) (hi : i < l.length) (hm : i < ms.length),
        f (l.get ⟨i, hi⟩) = .ok (ms.get ⟨i, hm⟩) := by
  intro l
  induction l with
  | nil =>
    intro ms _ i hi
    exact absurd hi (by simp)
  | cons tc rest ih =>
    intro ms h i hi hm
    simp only [dispatchGen] at h
    cases hf : f tc with
    | error e => rw [hf] at h; cases h
    | ok m =>
      rw [hf] at h
      cases hd : dispatchGen f rest with
      | error e => rw [hd] at h; cases h
      | ok ms2 =>
        rw [hd] at h
        cases h
        cases i with
        | zero => simpa using hf
        | succ j =>
          exact ih ms2 hd j (Nat.lt_of_succ_lt_succ hi) (Nat.lt_of_succ_lt_succ hm)

theorem dispatchGen_error_of_mem (f : ToolCall → Except TurnError Message) :
    ∀ (l : List ToolCall) (tc : ToolCall) (e : TurnError),
      tc ∈ l → f tc = .error e →
      ∃ e2, dispatchGen f l = .error e2 ∧ ∃ tc2, tc2 ∈ l ∧ f tc2 = .error e2 := by
  intro l
  induction l with
  | nil => intro tc e hmem; exact absurd hmem (by simp)
  | cons tc0 rest ih =>
    intro tc e hmem hfail
    cases hf : f tc0 with
    | error e0 =>
      exact ⟨e0, by simp only [dispatchGen, hf], tc0, List.mem_cons_self tc0 rest, hf⟩
    | ok m =>
      have hne : tc ≠ tc0 := fun he => by rw [he, hf] at hfail; cases hfail
      have hmem2 : tc ∈ rest := by
        cases List.mem_cons.mp hmem with
        | inl h => exact absurd h hne
        | inr h => exact h
      obtain ⟨e2, hd, tc2, hm2, hf2⟩ := ih tc e hmem2 hfail
      exact ⟨e2, by simp only [dispatchGen, hf, hd], tc2, List.mem_cons_of_mem tc0 hm2, hf2⟩

theorem dictInsert_not_mem : ∀ (l : List (String × Json)) (k : String) (v : Json),
    k ∉ l.map Prod.fst → dictInsert l k v = l ++ [(k, v)] := by
  intro l
  induction l with
  | nil => intro k v _; rfl
  | cons kv rest ih =>
    intro k v h
    simp only [List.map_cons, List.mem_cons] at h
    push_neg at h
    simp only [dictInsert, if_neg (Ne.symm h.1), List.cons_append]
    rw [ih k v h.2]

theorem dictInsert_split : ∀ (l1 : List (String × Json)) (l2 : List (String × Json))
    (k : String) (v0 v : Json), k ∉ l1.map Prod.fst →
    dictInsert (l1 ++ (k, v0) :: l2) k v = l1 ++ (k, v) :: l2 := by
  intro l1
  induction l1 with
  | nil => intro l2 k v0 v _; simp [dictInsert]
  | cons kv rest ih =>
    intro l2 k v0 v h
    simp only [List.map_cons, List.mem_cons] at h
    push_neg at h
    simp only [List.cons_append, dictInsert, if_neg (Ne.symm h.1), List.append_eq]
    rw [ih l2 k v0 v h.2]

theorem unval_ldigitsAux : ∀ (fuel n : Nat), unval (ldigitsAux fuel n) = n := by
  intro fuel
  induction fuel with
  | zero => intro n; simp [ldigitsAux, unval]
  | succ fuel ih =>
    intro n
    by_cases h : n < 10
    · simp [ldigitsAux, h, unval]
    · simp only [ldigitsAux, if_neg h, unval, List.foldr_cons]
      have := ih (n / 10)
      simp only [unval] at this
      rw [this]
      omega

theorem ldigits_injective : ∀ (m n : Nat), ldigits m = ldigits n → m = n := by
  intro m n h
  have hm := unval_ldigitsAux m m
  have hn := unval_ldigitsAux n n
  simp only [ldigits] at h
  rw [← hm, ← hn, h]

theorem ldigitsAux_lt_ten : ∀ (fuel n : Nat), n ≤ fuel →
    ∀ d ∈ ldigitsAux fuel n, d < 10 := by
  intro fuel
  induction fuel with
  | zero =>
    intro n hn d hd
    interval_cases n
    simp [ldigitsAux] at hd
    omega
  | succ fuel ih =>
    intro n hn d hd
    by_cases h : n < 10
    · simp only [ldigitsAux, if_pos h, List.mem_singleton] at hd
      omega
    · simp only [ldigitsAux, if_neg h, List.mem_cons] at hd
      cases hd with
      | inl he => omega
      | inr he =>
        have hfuel : n / 10 ≤ fuel := by omega
        exact ih (n / 10) hfuel d he

theorem digitChar10_inj_lt : ∀ (d e : Nat), d < 10 → e < 10 →
    digitChar10 d = digitChar10 e → d = e := by
  have key : ∀ d e : Fin 10, digitChar10 d.val = digitChar10 e.val → d = e := by decide
  intro d e hd he h
  have := key ⟨d, hd⟩ ⟨e, he⟩ h
  exact congrArg Fin.val this

theorem map_digitChar10_inj : ∀ (l1 l2 : List Nat),
    (∀ d ∈ l1, d < 10) → (∀ d ∈ l2, d < 10) →
    l1.map digitChar10 = l2.map digitChar10 → l1 = l2 := by
  intro l1
  induction l1 with
  | nil =>
    intro l2 _ _ h
    cases l2 with
    | nil => rfl
    | cons b t => simp at h
  | cons a t ih =>
    intro l2 h1 h2 h
    cases l2 with
    | nil => simp at h
    | cons b t2 =>
      simp only [List.map_cons, List.cons.injEq] at h
      have ha : a = b :=
        digitChar10_inj_lt a b (h1 a (by simp)) (h2 b (by simp)) h.1
      have ht : t = t2 :=
        ih t2 (fun d hd => h1 d (by simp [hd])) (fun d hd => h2 d (by simp [hd])) h.2
      rw [ha, ht]

theorem natRepr_injective : ∀ (m n : Nat), natRepr m = natRepr n → m = n := by
  intro m n h
  have hd : ((ldigits m).reverse.map digitChar10) = ((ldigits n).reverse.map digitChar10) :=
    congrArg String.data h
  have h2 := List.reverse_injective
    (map_digitChar10_inj (ldigits m).reverse (ldigits n).reverse
      (fun d hd => ldigitsAux_lt_ten m m le_rfl d (List.mem_reverse.mp hd))
      (fun d hd => ldigitsAux_lt_ten n n le_rfl d (List.mem_reverse.mp hd)) hd)
  exact ldigits_injective m n h2

theorem placeholder_inj : ∀ (i j : Nat), i ≠ j →
    ("tool_" ++ natRepr i : String) ≠ "tool_" ++ natRepr j := by
  intro i j hne he
  apply hne
  apply natRepr_injective
  have h1 : ("tool_" ++ natRepr i : String).data = ("tool_" ++ natRepr j : String).data :=
    congrArg String.data he
  simp only [String.data_append] at h1
  exact String.ext (List.append_cancel_left h1)

theorem keys_applyDelta (tc : DeltaToolCall) : ∀ (acc : List (Nat × Slot)),
    (applyDelta acc tc).map Prod.fst =
      if tc.index ∈ acc.map Prod.fst then acc.map Prod.fst
      else acc.map Prod.fst ++ [tc.index] := by
  intro acc
  induction acc with
  | nil => simp [applyDelta]
  | cons p rest ih =>
    by_cases h : p.1 = tc.index
    · simp [applyDelta, h]
    · simp only [applyDelta, if_neg h, List.map_cons, ih, List.mem_cons]
      by_cases h2 : tc.index ∈ rest.map Prod.fst
      · simp [h2, Ne.symm h]
      · simp [h2, Ne.symm h]

theorem nodup_keys_applyDelta (tc : DeltaToolCall) (acc : List (Nat × Slot))
    (h : (acc.map Prod.fst).Nodup) : ((applyDelta acc tc).map Prod.fst).Nodup := by
  rw [keys_applyDelta]
  by_cases hm : tc.index ∈ acc.map Prod.fst
  · simpa [hm]
  · rw [if_neg hm, List.nodup_append]
    refine ⟨h, List.nodup_singleton tc.index, ?_⟩
    intro a ha hb
    simp only [List.mem_singleton] at hb
    exact hm (hb ▸ ha)

theorem nodup_keys_foldl_applyDelta (tcs : List DeltaToolCall) :
    ∀ (acc : List (Nat × Slot)), (acc.map Prod.fst).Nodup →
    ((tcs.foldl applyDelta acc).map Prod.fst).Nodup := by
  induction tcs with
  | nil => intro acc h; simpa using h
  | cons tc rest ih =>
    intro acc h
    exact ih (applyDelta acc tc) (nodup_keys_applyDelta tc acc h)

theorem procEvent_acc (st : StreamState) (ev : StreamEvent) :
    (procEvent st ev).acc =
      match ev.delta.tool_calls with
      | none => st.acc
      | some tcs => tcs.foldl applyDelta st.acc := by
  simp only [procEvent]
  cases ev.delta.tool_calls with
  | none =>
    cases truthy ev.delta.content <;>
      cases hfr : ev.finish_reason <;> simp [hfr] <;>
      split <;> simp
  | some tcs =>
    cases truthy ev.delta.content <;>
      cases hfr : ev.finish_reason <;> simp [hfr] <;>
      split <;> simp

theorem nodup_keys_procEvent (st : StreamState) (ev : StreamEvent)
    (h : (st.acc.map Prod.fst).Nodup) :
    (((procEvent st ev).acc).map Prod.fst).Nodup := by
  rw [procEvent_acc]
  cases ev.delta.tool_calls with
  | none => exact h
  | some tcs => exact nodup_keys_foldl_applyDelta tcs st.acc h

theorem nodup_keys_stream (events : List StreamEvent) :
    (((events.foldl procEvent initStreamState).acc).map Prod.fst).Nodup := by
  suffices h : ∀ st : StreamState, (st.acc.map Prod.fst).Nodup →
      (((events.foldl procEvent st).acc).map Prod.fst).Nodup by
    exact h initStreamState (by simp [initStreamState])
  induction events with
  | nil => intro st h; exact h
  | cons ev rest ih =>
    intro st h
    exact ih (procEvent st ev) (nodup_keys_procEvent st ev h)

theorem sorted_lt_of_sorted_le_nodup : ∀ l : List Nat,
    List.Sorted (fun a b => a ≤ b) l → l.Nodup → List.Sorted (fun a b => a < b) l := by
  intro l h1 h2
  induction l with
  | nil => simp
  | cons a t ih =>
    rw [List.sorted_cons] at h1 ⊢
    rw [List.nodup_cons] at h2
    exact ⟨fun b hb => Nat.lt_of_le_of_ne (h1.1 b hb) (fun he => h2.1 (he ▸ hb)),
      ih h1.2 h2.2⟩

theorem sortAcc_keys_sorted (l : List (Nat × Slot)) :
    List.Sorted (fun a b => a ≤ b) ((sortAcc l).map Prod.fst) := by
  rw [List.Sorted, List.pairwise_map]
  exact List.sorted_insertionSort (fun a b => a.1 ≤ b.1) l

theorem sortAcc_perm (l : List (Nat × Slot)) : List.Perm (sortAcc l) l := by
  rw [sortAcc]
  exact List.perm_insertionSort _ l

theorem sortAcc_keys_nodup (l : List (Nat × Slot))
    (h : (l.map Prod.fst).Nodup) : ((sortAcc l).map Prod.fst).Nodup :=
  (List.Perm.nodup_iff ((sortAcc_perm l).map Prod.fst)).mpr h

theorem lookupSlot_applyDelta_ne (tc : DeltaToolCall) (j : Nat) (hne : j ≠ tc.index) :
    ∀ acc : List (Nat × Slot), lookupSlot (applyDelta acc tc) j = lookupSlot acc j := by
  intro acc
  induction acc with
  | nil => simp [applyDelta, lookupSlot, Ne.symm hne]
  | cons p rest ih =>
    by_cases h : p.1 = tc.index
    · have hpj : ¬ p.1 = j := fun he => hne (by rw [← he, h])
      simp only [applyDelta, if_pos h, lookupSlot, if_neg hpj]
    · by_cases h2 : p.1 = j
      · simp [applyDelta, if_neg h, lookupSlot, h2, hne]
      · simp only [applyDelta, if_neg h, lookupSlot, if_neg h2]
        exact ih

theorem dispatchGen_append_error (f : ToolCall → Except TurnError Message)
    (post : List ToolCall) (tc : ToolCall) (e : TurnError) (hfail : f tc = .error e) :
    ∀ (pre : List ToolCall) (pms : List Message),
      dispatchGen f pre = .ok pms → dispatchGen f (pre ++ tc :: post) = .error e := by
  intro pre
  induction pre with
  | nil =>
    intro pms _
    simp [dispatchGen, hfail]
  | cons p rest ih =>
    intro pms hpre
    rw [List.cons_append]
    cases hf : f p with
    | error e0 => simp [dispatchGen, hf] at hpre
    | ok m =>
      cases hrest : dispatchGen f rest with
      | error e0 => simp [dispatchGen, hf, hrest] at hpre
      | ok ms2 => simp [dispatchGen, hf, ih ms2 hrest]

theorem extractTexts_error_mem : ∀ (items : List ContentItem) (e : TurnError),
    extractTexts items = .error e →
    ∃ item, item ∈ items ∧ item.type ≠ "text" ∧ e = .unsupportedResultType item.type := by
  intro items
  induction items with
  | nil => intro e h; simp [extractTexts] at h
  | cons item rest ih =>
    intro e h
    by_cases ht : item.type = "text"
    · simp only [extractTexts, if_pos ht] at h
      cases hrest : extractTexts rest with
      | ok l => rw [hrest] at h; cases h
      | error e2 =>
        rw [hrest] at h
        cases h
        obtain ⟨it2, hm2, hne2, he2⟩ := ih _ hrest
        exact ⟨it2, List.mem_cons_of_mem item hm2, hne2, he2⟩
    · simp only [extractTexts, if_neg ht] at h
      cases h
      exact ⟨item, List.mem_cons_self item rest, ht, rfl⟩

/-! ### Claim theorems -/

/-- C2: for every model response with `finish_reason = stop`, exactly one
assistant message carrying the returned text is appended, no tool dispatch
happens (the outcome does not depend on the host), there is no recursion,
and the updated conversation is returned — in the nested orchestrator and,
for a streamed response whose recorded finish reason is `stop`, in the
streaming orchestrator. -/
theorem stop_appends_one_and_terminates (host : Host) (resp : ModelResponse)
    (rest : List ModelResponse) (conv : List Message)
    (hfr : resp.finish_reason = "stop") :
    processStep host resp conv = .final (conv ++ [.assistant resp.message.content none])
    ∧ runTurns host (resp :: rest) conv = .ok (conv ++ [.assistant resp.message.content none])
    ∧ (∀ events : List StreamEvent,
        (events.foldl procEvent initStreamState).finish = some "stop" →
        processStreamStep host events conv =
          .final (conv ++ [.assistant
            (some (String.join (events.foldl procEvent initStreamState).textParts)) none])) := by
  have h1 : processStep host resp conv =
      .final (conv ++ [.assistant resp.message.content none]) := by
    simp [processStep, hfr]
  refine ⟨h1, ?_, ?_⟩
  · simp [runTurns, h1]
  · intro events hfin
    simp [processStreamStep, hfin]

/-- C2 witness: a concrete `stop` response at a concrete conversation. -/
theorem stop_appends_one_and_terminates_witness :
    processStep hostOk ⟨"stop", ⟨some "6857", none⟩⟩ [.user "hi"] =
      .final ([.user "hi"] ++ [.assistant (some "6857") none]) :=
  (stop_appends_one_and_terminates hostOk ⟨"stop", ⟨some "6857", none⟩⟩ [] [.user "hi"] rfl).1

/-- C5: for every response whose finish reason is `length`, `content_filter`,
`function_call` or unrecognized, the turn raises the error classified by that
finish reason and appends nothing: the conversation at the raise is exactly
the conversation committed by prior turns, in both orchestrators (the
streaming client has no dedicated `function_call` branch and classifies it
through its unknown-finish-reason raise). -/
theorem failing_finish_reasons_append_nothing (host : Host) (resp : ModelResponse)
    (rest : List ModelResponse) (conv : List Message)
    (h1 : resp.finish_reason ≠ "stop") (h2 : resp.finish_reason ≠ "tool_calls") :
    processStep host resp conv = .failed
      (if resp.finish_reason = "length" then .lengthLimit
       else if resp.finish_reason = "content_filter" then .contentFilter
       else if resp.finish_reason = "function_call" then .deprecatedFunctionCall
       else .unknownFinishReason resp.finish_reason) conv
    ∧ runTurns host (resp :: rest) conv = .error
      ((if resp.finish_reason = "length" then .lengthLimit
        else if resp.finish_reason = "content_filter" then .contentFilter
        else if resp.finish_reason = "function_call" then .deprecatedFunctionCall
        else .unknownFinishReason resp.finish_reason), conv)
    ∧ (∀ events : List StreamEvent,
        (events.foldl procEvent initStreamState).finish ≠ some "stop" →
        (events.foldl procEvent initStreamState).finish ≠ some "tool_calls" →
        processStreamStep host events conv = .failed
          (if (events.foldl procEvent initStreamState).finish = some "length" then .lengthLimit
           else if (events.foldl procEvent initStreamState).finish = some "content_filter" then
             .contentFilter
           else .streamUnknownFinish (events.foldl procEvent initStreamState).finish) conv) := by
  have hstep : processStep host resp conv = .failed
      (if resp.finish_reason = "length" then .lengthLimit
       else if resp.finish_reason = "content_filter" then .contentFilter
       else if resp.finish_reason = "function_call" then .deprecatedFunctionCall
       else .unknownFinishReason resp.finish_reason) conv := by
    by_cases hl : resp.finish_reason = "length"
    · simp [processStep, hl]
    · by_cases hc : resp.finish_reason = "content_filter"
      · simp [processStep, hc]
      · by_cases hf : resp.finish_reason = "function_call"
        · simp [processStep, hf]
        · simp [processStep, h1, h2, hl, hc, hf]
  refine ⟨hstep, ?_, ?_⟩
  · simp [runTurns, hstep]
  · intro events hs ht
    by_cases hl : (events.foldl procEvent initStreamState).finish = some "length"
    · simp [processStreamStep, hl]
    · by_cases hc : (events.foldl procEvent initStreamState).finish = some "content_filter"
      · simp [processStreamStep, hc, hl]
      · simp [processStreamStep, hs, ht, hl, hc]

/-- C5 witness: a concrete `length` response leaves the conversation alone. -/
theorem failing_finish_reasons_append_nothing_witness :
    processStep hostOk ⟨"length", ⟨none, none⟩⟩ [.user "q"] = .failed
      (if ("length" : String) = "length" then .lengthLimit
       else if ("length" : String) = "content_filter" then .contentFilter
       else if ("length" : String) = "function_call" then .deprecatedFunctionCall
       else .unknownFinishReason "length") [.user "q"] :=
  (failing_finish_reasons_append_nothing hostOk ⟨"length", ⟨none, none⟩⟩ [] [.user "q"]
    (by decide) (by decide)).1

/-- C8 counterexample: a response that reports `finish_reason = tool_calls`
while issuing zero tool calls in the sense that the message carries no
tool-call list at all (`tool_calls = None`, exactly how the OpenAI message
represents an absent batch) makes the nested orchestrator's
`assert tool_calls is not None` fail: the turn raises instead of recursing,
so the claimed "recurses immediately without raising any error" is false. -/
theorem zero_tool_calls_counterexample :
    processStep hostOk ⟨"tool_calls", ⟨none, none⟩⟩ [] = .failed .assertionFailed [] := by
  decide

/-- C8 amended: a response with `finish_reason = tool_calls` carrying an
EMPTY tool-call list recurses immediately — the dispatcher runs with zero
work, no error is raised — in both orchestrators (in streaming, an event
sequence producing no accumulator slots materializes the empty batch); but
when the nested response carries no tool-call list at all (`None`), the
non-None assertion fails and the turn raises an assertion error. -/
theorem zero_tool_calls_amended (host : Host) (resp : ModelResponse)
    (rest : List ModelResponse) (conv : List Message)
    (hfr : resp.finish_reason = "tool_calls")
    (htc : resp.message.tool_calls = some []) :
    processStep host resp conv = .recurse (conv ++ [.assistant none (some [])])
    ∧ runTurns host (resp :: rest) conv =
        runTurns host rest (conv ++ [.assistant none (some [])])
    ∧ (∀ events : List StreamEvent,
        (events.foldl procEvent initStreamState).finish = some "tool_calls" →
        (events.foldl procEvent initStreamState).acc = [] →
        processStreamStep host events conv = .recurse (conv ++ [.assistant none (some [])]))
    ∧ (∀ resp2 : ModelResponse, resp2.finish_reason = "tool_calls" →
        resp2.message.tool_calls = none →
        processStep host resp2 conv = .failed .assertionFailed conv) := by
  have h1 : processStep host resp conv = .recurse (conv ++ [.assistant none (some [])]) := by
    simp [processStep, hfr, htc, dispatchBatch, dispatchGen]
  refine ⟨h1, ?_, ?_, ?_⟩
  · simp [runTurns, h1]
  · intro events hfin hacc
    simp [processStreamStep, hfin, hacc, materialize, sortAcc,
      dispatchBatchStreaming, dispatchGen]
  · intro resp2 hfr2 htc2
    simp [processStep, hfr2, htc2]

/-- C8 witness: a concrete empty-batch `tool_calls` response recurses. -/
theorem zero_tool_calls_amended_witness :
    processStep hostOk ⟨"tool_calls", ⟨none, some []⟩⟩ [.user "q"] =
      .recurse ([.user "q"] ++ [.assistant none (some [])]) :=
  (zero_tool_calls_amended hostOk ⟨"tool_calls", ⟨none, some []⟩⟩ [] [.user "q"]
    rfl rfl).1

/-- C10: a streamed tool call whose assembled arguments text is empty is
dispatched with the empty JSON object as its parsed arguments
(`json.loads(arguments or "\x7b\x7d")`), while the non-streaming dispatch
path raises an argument-parse error on the same empty arguments text
(`json.loads("")` fails). -/
theorem empty_arguments_divergence (host : Host) (tc : ToolCall)
    (htype : tc.type = "function") (hempty : tc.arguments = "") :
    processToolCallStreaming host tc = dispatchParsed host tc.name tc.id (.obj [])
    ∧ processToolCall host tc = .error (.toolArgumentError "")
    ∧ json_loads "\x7b\x7d" = some (.obj [])
    ∧ json_loads "" = none := by
  have hj : json_loads "\x7b\x7d" = some (.obj []) := rfl
  have hj2 : json_loads "" = none := rfl
  refine ⟨?_, ?_, hj, hj2⟩
  · simp [processToolCallStreaming, htype, hempty, hj]
  · simp [processToolCall, htype, hempty, hj2]

/-- C1: for every response with `finish_reason = tool_calls` carrying a batch
of N calls, the orchestrator appends exactly one assistant message with the
full ordered ToolCall list, dispatches all N calls, appends exactly N
tool-role messages in call-issue order (the i-th tool message is the result
of the i-th call), and recurses into a new turn with the extended
conversation — in the nested orchestrator and likewise in the streaming
orchestrator for the assembled batch. -/
theorem tool_calls_batch_dispatch (host : Host) (resp : ModelResponse)
    (rest : List ModelResponse) (conv : List Message)
    (tcs : List ToolCall) (msgs : List Message)
    (hfr : resp.finish_reason = "tool_calls")
    (htc : resp.message.tool_calls = some tcs)
    (hd : dispatchBatch host tcs = .ok msgs) :
    processStep host resp conv = .recurse ((conv ++ [.assistant none (some tcs)]) ++ msgs)
    ∧ msgs.length = tcs.length
    ∧ (∀ (i : Nat) (hi : i < tcs.length) (hm : i < msgs.length),
        processToolCall host (tcs.get ⟨i, hi⟩) = .ok (msgs.get ⟨i, hm⟩))
    ∧ runTurns host (resp :: rest) conv =
        runTurns host rest ((conv ++ [.assistant none (some tcs)]) ++ msgs)
    ∧ (∀ (events : List StreamEvent) (msgs2 : List Message),
        (events.foldl procEvent initStreamState).finish = some "tool_calls" →
        dispatchBatchStreaming host
          (materialize (events.foldl procEvent initStreamState).acc) = .ok msgs2 →
        processStreamStep host events conv =
          .recurse ((conv ++ [.assistant none
            (some (materialize (events.foldl procEvent initStreamState).acc))]) ++ msgs2)
        ∧ msgs2.length = (materialize (events.foldl procEvent initStreamState).acc).length
        ∧ ∀ (i : Nat)
            (hi : i < (materialize (events.foldl procEvent initStreamState).acc).length)
            (hm : i < msgs2.length),
            processToolCallStreaming host
              ((materialize (events.foldl procEvent initStreamState).acc).get ⟨i, hi⟩) =
              .ok (msgs2.get ⟨i, hm⟩)) := by
  have h1 : processStep host resp conv =
      .recurse ((conv ++ [.assistant none (some tcs)]) ++ msgs) := by
    simp [processStep, hfr, htc, hd]
  refine ⟨h1, dispatchGen_ok_length _ tcs msgs hd, dispatchGen_ok_get _ tcs msgs hd, ?_, ?_⟩
  · simp [runTurns, h1]
  · intro events msgs2 hfin hd2
    refine ⟨?_, dispatchGen_ok_length _ _ msgs2 hd2, dispatchGen_ok_get _ _ msgs2 hd2⟩
    simp [processStreamStep, hfin, hd2]

/-- C1 witness: the spec's factorize example as a one-call batch. -/
theorem tool_calls_batch_dispatch_witness :
    processStep hostOk respFactorize [] =
      .recurse (([] ++ [.assistant none (some [tcFactorize])]) ++ [msgFactorize]) :=
  (tool_calls_batch_dispatch hostOk respFactorize [] [] [tcFactorize] [msgFactorize]
    rfl rfl rfl).1

/-- C4: when a call of a dispatched batch fails (after any prefix of calls
that succeed), the whole batch and therefore the whole turn fails with that
call's classified error, and no tool-role message from the batch — including
the results of the successfully completed sibling calls — is appended: the
conversation at the failure holds only the prior messages plus the assistant
tool-calls message. Failures are classified as `ToolArgumentError` for
malformed JSON arguments, `ToolExecutionError` for a host-reported error,
and `UnsupportedResultType` for a non-text content item. -/
theorem batch_failure_aborts_turn (host : Host) (pre post : List ToolCall)
    (tc : ToolCall) (pms : List Message) (e : TurnError)
    (hpre : dispatchBatch host pre = .ok pms)
    (hfail : processToolCall host tc = .error e) :
    dispatchBatch host (pre ++ tc :: post) = .error e
    ∧ (∀ (resp : ModelResponse) (conv : List Message),
        resp.finish_reason = "tool_calls" →
        resp.message.tool_calls = some (pre ++ tc :: post) →
        processStep host resp conv =
          .failed e (conv ++ [.assistant none (some (pre ++ tc :: post))]))
    ∧ (∀ tc2 : ToolCall, tc2.type = "function" → json_loads tc2.arguments = none →
        processToolCall host tc2 = .error (.toolArgumentError tc2.arguments))
    ∧ (∀ (tc2 : ToolCall) (args : Json), tc2.type = "function" →
        json_loads tc2.arguments = some args → (host tc2.name args).isError = true →
        processToolCall host tc2 = .error (.toolExecutionError (host tc2.name args).error))
    ∧ (∀ (items : List ContentItem) (e3 : TurnError), extractTexts items = .error e3 →
        ∃ item, item ∈ items ∧ item.type ≠ "text" ∧ e3 = .unsupportedResultType item.type) := by
  have hbatch : dispatchBatch host (pre ++ tc :: post) = .error e :=
    dispatchGen_append_error _ post tc e hfail pre pms hpre
  refine ⟨hbatch, ?_, ?_, ?_, extractTexts_error_mem⟩
  · intro resp conv hfr htc
    simp [processStep, hfr, htc, hbatch]
  · intro tc2 ht hj
    simp [processToolCall, ht, hj]
  · intro tc2 args ht hj hie
    simp [processToolCall, ht, hj, dispatchParsed, hie]

/-- C4 witness: a successful sibling followed by a malformed-arguments call;
the batch fails with `ToolArgumentError` and the sibling result is dropped. -/
theorem batch_failure_aborts_turn_witness :
    dispatchBatch hostOk ([tcFactorize] ++ tcMalformed :: []) =
      .error (.toolArgumentError "\x7bnot json")
    ∧ processStep hostOk ⟨"tool_calls", ⟨none, some ([tcFactorize] ++ tcMalformed :: [])⟩⟩
        [.user "q"] =
      .failed (.toolArgumentError "\x7bnot json")
        ([.user "q"] ++ [.assistant none (some ([tcFactorize] ++ tcMalformed :: []))]) := by
  have h := batch_failure_aborts_turn hostOk [tcFactorize] [] tcMalformed [msgFactorize]
    (.toolArgumentError "\x7bnot json") rfl rfl
  exact ⟨h.1, h.2.1 ⟨"tool_calls", ⟨none, some ([tcFactorize] ++ tcMalformed :: [])⟩⟩
    [.user "q"] rfl rfl⟩

/-- C6: a successfully dispatched call produces a tool message whose content
is one JSON object merging the parsed original argument keys with one
additional key — the tool's name — mapping to the list of extracted text
results, and whose `tool_call_id` is the call's id; in particular the spec's
round trip: arguments `\x7b"q":"x"\x7d` to tool `search` returning texts
`["r1","r2"]` yields content JSON equal to
`\x7b"q":"x","search":["r1","r2"]\x7d`. -/
theorem success_merge_round_trip (host : Host) (tc : ToolCall)
    (kvs : List (String × Json)) (r : CallToolResult) (results : List String)
    (htype : tc.type = "function")
    (hargs : json_loads tc.arguments = some (.obj kvs))
    (hfresh : tc.name ∉ kvs.map Prod.fst)
    (hhost : host tc.name (.obj kvs) = r)
    (hok : r.isError = false)
    (hex : extractTexts r.content = .ok results) :
    processToolCall host tc =
      .ok (.tool (Json.dumps (.obj (kvs ++ [(tc.name, .arr (results.map Json.str))]))) tc.id)
    ∧ (∀ host2 : Host,
        host2 "search" (.obj [("q", .str "x")]) =
          ⟨false, [⟨"text", "r1"⟩, ⟨"text", "r2"⟩], ""⟩ →
        processToolCall host2 ⟨"call1", "function", "search", "\x7b\"q\":\"x\"\x7d"⟩ =
          .ok (.tool "\x7b\"q\": \"x\", \"search\": [\"r1\", \"r2\"]\x7d" "call1"))
    ∧ json_loads "\x7b\"q\": \"x\", \"search\": [\"r1\", \"r2\"]\x7d" =
        some (.obj [("q", .str "x"), ("search", .arr [.str "r1", .str "r2"])]) := by
  refine ⟨?_, ?_, rfl⟩
  · simp [processToolCall, htype, hargs, dispatchParsed, hhost, hok, hex,
      dictInsert_not_mem kvs tc.name _ hfresh]
  · intro host2 hh2
    have hj : json_loads "\x7b\"q\":\"x\"\x7d" = some (.obj [("q", .str "x")]) := rfl
    simp [processToolCall, hj, dispatchParsed, hh2, extractTexts, dictInsert]
    rfl

/-- C6 witness: the round trip under the concrete host `hostSearch`. -/
theorem success_merge_round_trip_witness :
    processToolCall hostSearch ⟨"call1", "function", "search", "\x7b\"q\":\"x\"\x7d"⟩ =
      .ok (.tool (Json.dumps (.obj ([("q", Json.str "x")] ++
        [("search", Json.arr (["r1", "r2"].map Json.str))]))) "call1") :=
  (success_merge_round_trip hostSearch ⟨"call1", "function", "search", "\x7b\"q\":\"x\"\x7d"⟩
    [("q", Json.str "x")] ⟨false, [⟨"text", "r1"⟩, ⟨"text", "r2"⟩], ""⟩ ["r1", "r2"]
    rfl rfl (by decide) rfl rfl rfl).1

/-- C9: when the parsed arguments object already contains a key equal to the
tool's name, the merge `\x7b**tool_args, tool_name: results\x7d` OVERWRITES
that key in place — the result message maps it to the extracted text results
and the original value is lost, no new key is added; the streaming variant
behaves identically on the same (non-empty) arguments text. -/
theorem merge_overwrites_existing_key (host : Host) (tc : ToolCall)
    (l1 l2 : List (String × Json)) (v0 : Json) (r : CallToolResult) (results : List String)
    (htype : tc.type = "function")
    (hargs : json_loads tc.arguments = some (.obj (l1 ++ (tc.name, v0) :: l2)))
    (hl1 : tc.name ∉ l1.map Prod.fst)
    (hhost : host tc.name (.obj (l1 ++ (tc.name, v0) :: l2)) = r)
    (hok : r.isError = false)
    (hex : extractTexts r.content = .ok results) :
    processToolCall host tc =
      .ok (.tool (Json.dumps (.obj (l1 ++ (tc.name, .arr (results.map Json.str)) :: l2)))
        tc.id)
    ∧ processToolCallStreaming host tc = processToolCall host tc := by
  have hne : tc.arguments ≠ "" := by
    intro h
    rw [h] at hargs
    cases hargs
  constructor
  · simp [processToolCall, htype, hargs, dispatchParsed, hhost, hok, hex,
      dictInsert_split l1 l2 tc.name v0 _ hl1]
  · simp [processToolCallStreaming, processToolCall, htype, hne]

/-- C9 witness: arguments `\x7b"search":0\x7d` to tool `search`; the
original value 0 is overwritten by the results list. -/
theorem merge_overwrites_existing_key_witness :
    processToolCall hostSearch ⟨"c2", "function", "search", "\x7b\"search\":0\x7d"⟩ =
      .ok (.tool (Json.dumps (.obj ([] ++ ("search",
        Json.arr (["r1", "r2"].map Json.str)) :: []))) "c2") :=
  (merge_overwrites_existing_key hostSearch
    ⟨"c2", "function", "search", "\x7b\"search\":0\x7d"⟩ [] [] (Json.num 0)
    ⟨false, [⟨"text", "r1"⟩, ⟨"text", "r2"⟩], ""⟩ ["r1", "r2"]
    rfl rfl (by decide) rfl rfl rfl).1

/-- C3 counterexample: two fragments for slot 0 carrying name pieces `"se"`
then `"arch"` leave the accumulated name `"arch"`, not the concatenation
`"se" ++ "arch"`: the assembler REPLACES the accumulated name instead of
appending to it, refuting the claim that fragments append to both the
accumulated name and the accumulated arguments. -/
theorem fragment_name_append_counterexample :
    (([⟨⟨none, some [⟨0, none, some "function", some ⟨some "se", none⟩⟩]⟩, none⟩,
       ⟨⟨none, some [⟨0, none, some "function", some ⟨some "arch", none⟩⟩]⟩, none⟩]
        : List StreamEvent).foldl procEvent initStreamState).acc =
      [(0, ⟨none, some "function", "arch", ""⟩)]
    ∧ ("arch" : String) ≠ "se" ++ "arch" := by
  exact ⟨rfl, by decide⟩

/-- C3 amended: the streaming assembler maintains one accumulator per
`slot_index`; a fragment updates only the slot it targets and only the
fields it carries; a non-empty arguments delta is APPENDED to the
accumulated arguments, while a non-empty name delta OVERWRITES the
accumulated name (last one wins) rather than appending; the claim's concrete
example holds: fragments `slot 0: "\x7b\"a\":"`, `slot 1: "\x7b\x7d"`,
`slot 0: "1\x7d"` assemble to arguments `"\x7b\"a\":1\x7d"` for slot 0 and
`"\x7b\x7d"` for slot 1. -/
theorem fragment_accumulation_amended :
    (∀ (acc : List (Nat × Slot)) (tc : DeltaToolCall) (j : Nat), j ≠ tc.index →
      lookupSlot (applyDelta acc tc) j = lookupSlot acc j)
    ∧ (∀ (s : Slot) (tc : DeltaToolCall) (a : String), tc.id = none →
        tc.function = some ⟨none, some a⟩ → a ≠ "" →
        updateSlot s tc = { s with arguments := s.arguments ++ a })
    ∧ (∀ (s : Slot) (tc : DeltaToolCall) (n : String), tc.id = none →
        tc.function = some ⟨some n, none⟩ → n ≠ "" →
        updateSlot s tc = { s with name := n })
    ∧ (materialize
        (([⟨⟨none, some [⟨0, none, some "function", some ⟨none, some "\x7b\"a\":"⟩⟩]⟩, none⟩,
           ⟨⟨none, some [⟨1, none, some "function", some ⟨none, some "\x7b\x7d"⟩⟩]⟩, none⟩,
           ⟨⟨none, some [⟨0, none, some "function", some ⟨none, some "1\x7d"⟩⟩]⟩, none⟩]
            : List StreamEvent).foldl procEvent initStreamState).acc).map
        (fun tc => tc.arguments) = ["\x7b\"a\":1\x7d", "\x7b\x7d"] := by
  refine ⟨?_, ?_, ?_, rfl⟩
  · intro acc tc j hne
    exact lookupSlot_applyDelta_ne tc j hne acc
  · intro s tc a hid hfn ha
    simp [updateSlot, hid, hfn, truthy, ha]
  · intro s tc n hid hfn hn
    simp [updateSlot, hid, hfn, truthy, hn]

/-- C3 amended witness: concrete instances of the per-slot isolation, the
arguments append and the name overwrite. -/
theorem fragment_accumulation_amended_witness :
    lookupSlot (applyDelta [] ⟨0, none, none, none⟩) 1 = lookupSlot [] 1
    ∧ updateSlot ⟨none, none, "n0", "x"⟩ ⟨0, none, none, some ⟨none, some "y"⟩⟩ =
        { (⟨none, none, "n0", "x"⟩ : Slot) with arguments := "x" ++ "y" }
    ∧ updateSlot ⟨none, none, "n0", "x"⟩ ⟨0, none, none, some ⟨some "n1", none⟩⟩ =
        { (⟨none, none, "n0", "x"⟩ : Slot) with name := "n1" } :=
  ⟨fragment_accumulation_amended.1 [] ⟨0, none, none, none⟩ 1 (by decide),
   fragment_accumulation_amended.2.1 ⟨none, none, "n0", "x"⟩
     ⟨0, none, none, some ⟨none, some "y"⟩⟩ "y" rfl rfl (by decide),
   fragment_accumulation_amended.2.2.1 ⟨none, none, "n0", "x"⟩
     ⟨0, none, none, some ⟨some "n1", none⟩⟩ "n1" rfl rfl (by decide)⟩

/-- C7 counterexample: slot 0's fragments supply the id `"tool_1"` while
slot 1 never receives an id; slot 1's synthesized placeholder is also
`"tool_1"`, so the materialized batch carries duplicate ids — the
placeholder is NOT unique within the turn's batch. -/
theorem placeholder_uniqueness_counterexample :
    (materialize
      (([⟨⟨none, some [⟨0, some "tool_1", some "function", some ⟨some "a", some "\x7b\x7d"⟩⟩]⟩, none⟩,
         ⟨⟨none, some [⟨1, none, some "function", some ⟨some "b", some "\x7b\x7d"⟩⟩]⟩, none⟩,
         ⟨⟨none, none⟩, some "tool_calls"⟩]
          : List StreamEvent).foldl procEvent initStreamState).acc).map
      (fun tc => tc.id) = ["tool_1", "tool_1"]
    ∧ ¬ (["tool_1", "tool_1"] : List String).Nodup := by
  exact ⟨rfl, by decide⟩

/-- C7 amended: on stream end with finish reason `tool_calls` the assembler
materializes the `ToolCall` list ordered by strictly ascending `slot_index`
and hands it to the dispatch/continuation path; every slot for which no
fragment supplied a truthy id receives the synthesized placeholder
`"tool_" ++ natRepr slot_index`, and placeholders of distinct slots are
pairwise distinct — but a placeholder may collide with a model-supplied id
of another slot, so uniqueness within the whole batch is not guaranteed. -/
theorem stream_end_materialization_amended (host : Host) (events : List StreamEvent)
    (conv : List Message)
    (hfin : (events.foldl procEvent initStreamState).finish = some "tool_calls") :
    List.Sorted (fun a b => a < b)
      ((sortAcc (events.foldl procEvent initStreamState).acc).map Prod.fst)
    ∧ materialize (events.foldl procEvent initStreamState).acc =
        (sortAcc (events.foldl procEvent initStreamState).acc).map slotToCall
    ∧ (∀ p : Nat × Slot, truthy p.2.id = false →
        (slotToCall p).id = "tool_" ++ natRepr p.1)
    ∧ (∀ i j : Nat, i ≠ j → ("tool_" ++ natRepr i : String) ≠ "tool_" ++ natRepr j)
    ∧ (∀ msgs : List Message,
        dispatchBatchStreaming host
          (materialize (events.foldl procEvent initStreamState).acc) = .ok msgs →
        processStreamStep host events conv =
          .recurse ((conv ++ [.assistant none
            (some (materialize (events.foldl procEvent initStreamState).acc))]) ++ msgs)) := by
  refine ⟨?_, rfl, ?_, placeholder_inj, ?_⟩
  · exact sorted_lt_of_sorted_le_nodup _ (sortAcc_keys_sorted _)
      (sortAcc_keys_nodup _ (nodup_keys_stream events))
  · intro p hp
    simp [slotToCall, hp]
  · intro msgs hd
    simp [processStreamStep, hfin, hd]

/-- C7 amended witness: two id-less slots arriving out of order are
materialized in ascending slot order with distinct placeholders. -/
theorem stream_end_materialization_amended_witness :
    List.Sorted (fun a b => a < b)
      ((sortAcc ((eventsTwoSlots).foldl procEvent initStreamState).acc).map Prod.fst)
    ∧ (slotToCall (5, ⟨none, some "function", "f", "\x7b\x7d"⟩)).id = "tool_" ++ natRepr 5
    ∧ ("tool_" ++ natRepr 0 : String) ≠ "tool_" ++ natRepr 1 := by
  have h := stream_end_materialization_amended hostOk eventsTwoSlots [] rfl
  exact ⟨h.1, h.2.2.1 (5, ⟨none, some "function", "f", "\x7b\x7d"⟩) rfl,
    h.2.2.2.1 0 1 (by decide)⟩

/-- C10 witness: a concrete empty-arguments call under `hostSearch`. -/
theorem empty_arguments_divergence_witness :
    processToolCallStreaming hostSearch ⟨"c1", "function", "search", ""⟩ =
      dispatchParsed hostSearch "search" "c1" (.obj [])
    ∧ processToolCall hostSearch ⟨"c1", "function", "search", ""⟩ =
      .error (.toolArgumentError "") :=
  ⟨(empty_arguments_divergence hostSearch ⟨"c1", "function", "search", ""⟩ rfl rfl).1,
   (empty_arguments_divergence hostSearch ⟨"c1", "function", "search", ""⟩ rfl rfl).2.1⟩

end MCP
